import Mathlib

/-!
# fc::safe<T> : checked integer arithmetic (include/fc/safe.hpp)

A shallow embedding of the template `fc::safe<T>` for the built-in fixed-width
integer types, followed by theorems about its operators.

Conventions of the embedding

* A value of a C++ integer type is the mathematical integer it denotes (`Int`);
  `IntTy.InRange` says that it is representable in the type.
* Arithmetic on operands of type `T` is performed in the promoted type
  (`IntTy.promote`: types narrower than `int` are promoted to the 32-bit `int`),
  and a result is converted back to `T` when it is stored in `value`.
* A sum, difference, negation or product that is out of range of the type it is
  computed in, or a value out of range of the type it is converted to, is reduced
  modulo `2 ^ bits` (two's complement). For unsigned arithmetic and for narrowing
  conversions this is what the language prescribes; for signed arithmetic at 32
  and 64 bits it is the behaviour of the usual targets.
* A built-in division has no value when the divisor is zero or when the quotient
  is not representable in the type it is computed in (`min / -1` at 32 and 64
  bits): the language leaves it undefined and the usual targets trap. A call that
  reaches such a division has no outcome (`none`).
* A member function that mutates `*this` is a function from the object before the
  call to the pair of its result (a returned value or a thrown exception) and the
  object after the call, so that the state left behind by a throw is visible.
-/

namespace fc

/-- The widths of the built-in fixed-width integer types. -/
inductive Width where
  | w8
  | w16
  | w32
  | w64
  deriving DecidableEq, Repr

/-- Number of bits of a width. -/
def Width.bits : Width → Nat
  | .w8 => 8
  | .w16 => 16
  | .w32 => 32
  | .w64 => 64

/-- A built-in integer type `T`: its width and signedness. -/
structure IntTy where
  width : Width
  signed : Bool
  deriving DecidableEq, Repr

namespace IntTy

/-- `std::int8_t`. -/
def int8_t : IntTy := ⟨.w8, true⟩
/-- `std::int16_t`. -/
def int16_t : IntTy := ⟨.w16, true⟩
/-- `std::int32_t`, which is `int`. -/
def int32_t : IntTy := ⟨.w32, true⟩
/-- `std::int64_t`. -/
def int64_t : IntTy := ⟨.w64, true⟩
/-- `std::uint8_t`. -/
def uint8_t : IntTy := ⟨.w8, false⟩
/-- `std::uint16_t`. -/
def uint16_t : IntTy := ⟨.w16, false⟩
/-- `std::uint32_t`. -/
def uint32_t : IntTy := ⟨.w32, false⟩
/-- `std::uint64_t`. -/
def uint64_t : IntTy := ⟨.w64, false⟩

/-- `std::numeric_limits<T>::max()`. -/
def max (T : IntTy) : Int :=
  if T.signed then 2 ^ (T.width.bits - 1) - 1 else 2 ^ T.width.bits - 1

/-- `std::numeric_limits<T>::min()`. -/
def min (T : IntTy) : Int :=
  if T.signed then -(2 ^ (T.width.bits - 1)) else 0

/-- The integer `v` is representable in `T`. -/
def InRange (T : IntTy) (v : Int) : Prop := T.min ≤ v ∧ v ≤ T.max

instance (T : IntTy) (v : Int) : Decidable (T.InRange v) := by
  unfold InRange; infer_instance

/-- Conversion of an integer to `T`: the value of `T` congruent to `x` modulo
`2 ^ bits`. It is the identity on the values representable in `T`. -/
def convert (T : IntTy) (x : Int) : Int :=
  if T.signed then
    (x + 2 ^ (T.width.bits - 1)) % 2 ^ T.width.bits - 2 ^ (T.width.bits - 1)
  else
    x % 2 ^ T.width.bits

/-- Integer promotion: a type narrower than `int` is promoted to `int`; the
other types are unchanged. Two operands of type `T` are both brought to this
type before a built-in arithmetic operator or comparison is applied. -/
def promote (T : IntTy) : IntTy :=
  if T.width.bits < 32 then int32_t else T

/-- Built-in binary `x + y` on operands of type `T`. -/
def add (T : IntTy) (x y : Int) : Int := T.promote.convert (x + y)

/-- Built-in binary `x - y` on operands of type `T`. -/
def sub (T : IntTy) (x y : Int) : Int := T.promote.convert (x - y)

/-- Built-in unary `-x` on an operand of type `T`. -/
def neg (T : IntTy) (x : Int) : Int := T.promote.convert (-x)

/-- Built-in `x * y` on operands of type `T`. -/
def mul (T : IntTy) (x y : Int) : Int := T.promote.convert (x * y)

/-- Built-in `x / y` on operands of type `T`: the quotient truncated toward zero.
It is undefined (`none`) when `y` is zero and when the quotient is not
representable in the promoted type, in which the division is performed. -/
def div (T : IntTy) (x y : Int) : Option Int :=
  if y ≠ 0 ∧ T.promote.InRange (Int.tdiv x y) then some (Int.tdiv x y) else none

end IntTy

/-- The exception types thrown by `safe<T>`. -/
inductive exception_kind where
  | overflow_exception
  | underflow_exception
  | assert_exception
  deriving DecidableEq, Repr

/-- A thrown exception: its type and the values captured in its context. -/
structure exception where
  kind : exception_kind
  captured : List Int
  deriving DecidableEq, Repr

/-- Equality of the results of a call is decidable. -/
instance instDecidableEqResult {α : Type} [DecidableEq α] :
    DecidableEq (Except exception α)
  | .ok x, .ok y => if h : x = y then isTrue (by rw [h]) else isFalse (by intro c; cases c; exact h rfl)
  | .error e, .error f =>
    if h : e = f then isTrue (by rw [h]) else isFalse (by intro c; cases c; exact h rfl)
  | .ok _, .error _ => isFalse (by intro c; cases c)
  | .error _, .ok _ => isFalse (by intro c; cases c)

/-- Modelled from the spec: the macro `FC_CAPTURE_AND_THROW` is defined in
`fc/exception/exception.hpp`, which is not part of the sources at hand. It raises
a failure of the named kind that records the operand values that triggered it. -/
def FC_CAPTURE_AND_THROW {α : Type} (kind : exception_kind) (captured : List Int) :
    Except exception α :=
  .error ⟨kind, captured⟩

/-- Modelled from the spec: the macro `FC_ASSERT` is defined in
`fc/exception/exception.hpp`, which is not part of the sources at hand. It fails
with an assertion-style error when its condition is violated, and does nothing
otherwise. -/
def FC_ASSERT (cond : Bool) : Except exception Unit :=
  if cond then .ok () else .error ⟨.assert_exception, []⟩

/-- The struct `safe<T>`: its only data member is `T value`. -/
structure safe (T : IntTy) where
  value : Int
  deriving DecidableEq, Repr

/-- The outcome of a call of a mutating member function: what the call returned
or threw, and the object `*this` as the call left it. -/
structure Outcome (T : IntTy) (α : Type) where
  result : Except exception α
  self : safe T
  deriving DecidableEq

namespace safe

variable {T : IntTy}

/-- `template<typename O> safe( O o ):value(o){}` : conversion of `o` to `T`. -/
def ctor (T : IntTy) (o : Int) : safe T := ⟨T.convert o⟩

/-- `safe(){}` with the default member initializer `T value = 0`. -/
def default (T : IntTy) : safe T := ⟨0⟩

/-- `static safe max()`. -/
def max (T : IntTy) : safe T := ctor T T.max

/-- `static safe min()`. -/
def min (T : IntTy) : safe T := ctor T T.min

/-- `safe& operator += ( const safe& b )`; the reference returned is read as the
object it refers to. -/
def operator_add_assign (self b : safe T) : Outcome T (safe T) :=
  if b.value > 0 ∧ self.value > T.sub T.max b.value then
    ⟨FC_CAPTURE_AND_THROW .overflow_exception [self.value, b.value], self⟩
  else if b.value < 0 ∧ self.value < T.sub T.min b.value then
    ⟨FC_CAPTURE_AND_THROW .underflow_exception [self.value, b.value], self⟩
  else
    let self1 : safe T := ⟨T.convert (T.add self.value b.value)⟩
    ⟨.ok self1, self1⟩

/-- `friend safe operator + ( const safe& a, const safe& b )`. -/
def operator_add (a b : safe T) : Except exception (safe T) :=
  if b.value > 0 ∧ a.value > T.sub T.max b.value then
    FC_CAPTURE_AND_THROW .overflow_exception [a.value, b.value]
  else if b.value < 0 ∧ a.value < T.sub T.min b.value then
    FC_CAPTURE_AND_THROW .underflow_exception [a.value, b.value]
  else
    .ok (ctor T (T.add a.value b.value))

/-- `safe& operator *= ( safe v ) { value *= v.value; return *this; }`. -/
def operator_mul_assign (self v : safe T) : Outcome T (safe T) :=
  let self1 : safe T := ⟨T.convert (T.mul self.value v.value)⟩
  ⟨.ok self1, self1⟩

/-- `safe& operator /= ( safe v ) { FC_ASSERT(v.value != 0); value /= v.value; return *this; }`.
The call has no outcome (`none`) when the built-in division is undefined. -/
def operator_div_assign (self v : safe T) : Option (Outcome T (safe T)) :=
  match FC_ASSERT (v.value != 0) with
  | .error e => some ⟨.error e, self⟩
  | .ok () =>
    match T.div self.value v.value with
    | none => none
    | some q =>
      let self1 : safe T := ⟨T.convert q⟩
      some ⟨.ok self1, self1⟩

/-- `safe& operator -= ( const safe& b ) { return *this += safe(-b.value); }`. -/
def operator_sub_assign (self b : safe T) : Outcome T (safe T) :=
  operator_add_assign self (ctor T (T.neg b.value))

/-- `safe operator -()const`. -/
def operator_neg (self : safe T) : Except exception (safe T) :=
  if self.value = T.min then
    FC_CAPTURE_AND_THROW .overflow_exception [self.value]
  else
    .ok (ctor T (T.neg self.value))

/-- `safe operator++(int) { safe bak = *this; *this += 1; return bak; }`. -/
def operator_post_inc (self : safe T) : Outcome T (safe T) :=
  let bak := self
  match operator_add_assign self (ctor T 1) with
  | ⟨.error e, self1⟩ => ⟨.error e, self1⟩
  | ⟨.ok _, self1⟩ => ⟨.ok bak, self1⟩

/-- `safe& operator++() { return *this += 1; }`. -/
def operator_pre_inc (self : safe T) : Outcome T (safe T) :=
  operator_add_assign self (ctor T 1)

/-- `safe operator--(int) { safe bak = *this; *this -= 1; return bak; }`. -/
def operator_post_dec (self : safe T) : Outcome T (safe T) :=
  let bak := self
  match operator_sub_assign self (ctor T 1) with
  | ⟨.error e, self1⟩ => ⟨.error e, self1⟩
  | ⟨.ok _, self1⟩ => ⟨.ok bak, self1⟩

/-- `safe& operator--() { return *this -= 1; }`. -/
def operator_pre_dec (self : safe T) : Outcome T (safe T) :=
  operator_sub_assign self (ctor T 1)

/-- `friend safe operator - ( const safe& a, const safe& b )`:
`safe tmp(a); tmp -= b; return tmp;`. -/
def operator_sub (a b : safe T) : Except exception (safe T) :=
  let tmp := a
  match operator_sub_assign tmp b with
  | ⟨.error e, _⟩ => .error e
  | ⟨.ok _, tmp1⟩ => .ok tmp1

/-- `friend bool operator == ( const safe& a, const safe& b )`. -/
def operator_eq (a b : safe T) : Bool := a.value == b.value
/-- `friend bool operator == ( const safe& a, const T& b )`. -/
def operator_eq_raw (a : safe T) (b : Int) : Bool := a.value == b
/-- `friend bool operator == ( const T& a, const safe& b )`. -/
def raw_operator_eq (a : Int) (b : safe T) : Bool := a == b.value
/-- `friend bool operator != ( const safe& a, const safe& b )`. -/
def operator_ne (a b : safe T) : Bool := a.value != b.value
/-- `friend bool operator != ( const safe& a, const T& b )`. -/
def operator_ne_raw (a : safe T) (b : Int) : Bool := a.value != b
/-- `friend bool operator != ( const T& a, const safe& b )`. -/
def raw_operator_ne (a : Int) (b : safe T) : Bool := a != b.value
/-- `friend bool operator < ( const safe& a, const safe& b )`. -/
def operator_lt (a b : safe T) : Bool := decide (a.value < b.value)
/-- `friend bool operator < ( const safe& a, const T& b )`. -/
def operator_lt_raw (a : safe T) (b : Int) : Bool := decide (a.value < b)
/-- `friend bool operator < ( const T& a, const safe& b )`. -/
def raw_operator_lt (a : Int) (b : safe T) : Bool := decide (a < b.value)
/-- `friend bool operator > ( const safe& a, const safe& b )`. -/
def operator_gt (a b : safe T) : Bool := decide (a.value > b.value)
/-- `friend bool operator > ( const safe& a, const T& b )`. -/
def operator_gt_raw (a : safe T) (b : Int) : Bool := decide (a.value > b)
/-- `friend bool operator > ( const T& a, const safe& b )`. -/
def raw_operator_gt (a : Int) (b : safe T) : Bool := decide (a > b.value)
/-- `friend bool operator >= ( const safe& a, const safe& b )`. -/
def operator_ge (a b : safe T) : Bool := decide (a.value ≥ b.value)
/-- `friend bool operator >= ( const safe& a, const T& b )`. -/
def operator_ge_raw (a : safe T) (b : Int) : Bool := decide (a.value ≥ b)
/-- `friend bool operator >= ( const T& a, const safe& b )`. -/
def raw_operator_ge (a : Int) (b : safe T) : Bool := decide (a ≥ b.value)
/-- `friend bool operator <= ( const safe& a, const safe& b )`. -/
def operator_le (a b : safe T) : Bool := decide (a.value ≤ b.value)
/-- `friend bool operator <= ( const safe& a, const T& b )`. -/
def operator_le_raw (a : safe T) (b : Int) : Bool := decide (a.value ≤ b)
/-- `friend bool operator <= ( const T& a, const safe& b )`. -/
def raw_operator_le (a : Int) (b : safe T) : Bool := decide (a ≤ b.value)

end safe

/-! ## Facts about the built-in arithmetic -/

namespace IntTy

/-- The bounds of the eight types, as numerals. -/
theorem bounds_cases (T : IntTy) :
    (T.min = -128 ∧ T.max = 127) ∨ (T.min = -32768 ∧ T.max = 32767)
      ∨ (T.min = -2147483648 ∧ T.max = 2147483647)
      ∨ (T.min = -9223372036854775808 ∧ T.max = 9223372036854775807)
      ∨ (T.min = 0 ∧ T.max = 255) ∨ (T.min = 0 ∧ T.max = 65535)
      ∨ (T.min = 0 ∧ T.max = 4294967295) ∨ (T.min = 0 ∧ T.max = 18446744073709551615) := by
  rcases T with ⟨w, s⟩
  cases w <;> cases s <;> simp [min, max, Width.bits]

/-- Conversion to `T` does not change a value representable in `T`. -/
theorem convert_of_inRange {T : IntTy} {x : Int} (h : T.InRange x) : T.convert x = x := by
  rcases T with ⟨w, s⟩
  cases w <;> cases s <;> simp [InRange, min, max, convert, Width.bits] at h ⊢ <;> omega

/-- A value representable in `T` is representable in the promoted type. -/
theorem promote_inRange {T : IntTy} {x : Int} (h : T.InRange x) : T.promote.InRange x := by
  rcases T with ⟨w, s⟩
  cases w <;> cases s <;>
    simp [InRange, min, max, promote, int32_t, Width.bits] at h ⊢ <;> omega

/-- For `0 < b` in `T`, the built-in `max - b` is exact. -/
theorem sub_max_of_pos {T : IntTy} {b : Int} (hb : T.InRange b) (hpos : 0 < b) :
    T.sub T.max b = T.max - b := by
  rcases T with ⟨w, s⟩
  cases w <;> cases s <;>
    simp [InRange, min, max, sub, convert, promote, int32_t, Width.bits] at hb ⊢ <;> omega

/-- For `b < 0` in `T`, the built-in `min - b` is exact. -/
theorem sub_min_of_neg {T : IntTy} {b : Int} (hb : T.InRange b) (hneg : b < 0) :
    T.sub T.min b = T.min - b := by
  rcases T with ⟨w, s⟩
  cases w <;> cases s <;>
    simp [InRange, min, max, sub, convert, promote, int32_t, Width.bits] at hb ⊢ <;> omega

/-- The built-in sum of two values, stored in a `T`, is exact when the
mathematical sum is representable in `T`. -/
theorem convert_add_of_inRange {T : IntTy} {a b : Int} (h : T.InRange (a + b)) :
    T.convert (T.add a b) = a + b := by
  unfold add
  rw [convert_of_inRange (promote_inRange h), convert_of_inRange h]

/-- The built-in negation of a value of a signed `T` other than `min`, stored in a
`T`, is exact. -/
theorem convert_neg_of_ne_min {T : IntTy} {b : Int} (hs : T.signed = true)
    (hb : T.InRange b) (hne : b ≠ T.min) : T.convert (T.neg b) = -b := by
  rcases T with ⟨w, s⟩
  subst hs
  cases w <;>
    simp [InRange, min, max, neg, convert, promote, int32_t, Width.bits] at hb hne ⊢ <;>
    omega

/-- The built-in negation of `min` of a signed `T`, stored in a `T`, is `min`. -/
theorem convert_neg_min {T : IntTy} (hs : T.signed = true) :
    T.convert (T.neg T.min) = T.min := by
  rcases T with ⟨w, s⟩
  subst hs
  cases w <;> simp [min, neg, convert, promote, int32_t, Width.bits]

/-- The built-in negation of a value `b > 0` of an unsigned `T`, stored in a `T`,
is `max + 1 - b`. -/
theorem convert_neg_unsigned {T : IntTy} {b : Int} (hs : T.signed = false)
    (hb : T.InRange b) (hpos : 0 < b) : T.convert (T.neg b) = T.max + 1 - b := by
  rcases T with ⟨w, s⟩
  subst hs
  cases w <;>
    simp [InRange, min, max, neg, convert, promote, int32_t, Width.bits] at hb ⊢ <;> omega

/-- The negation of a value of a signed `T` other than `min` is representable. -/
theorem inRange_neg {T : IntTy} {b : Int} (hs : T.signed = true) (hb : T.InRange b)
    (hne : b ≠ T.min) : T.InRange (-b) := by
  rcases T with ⟨w, s⟩
  subst hs
  cases w <;> simp [InRange, min, max, Width.bits] at hb hne ⊢ <;> omega

/-- The literal `1` is representable in every `T`. -/
theorem inRange_one (T : IntTy) : T.InRange 1 := by
  rcases T with ⟨w, s⟩
  cases w <;> cases s <;> simp [InRange, min, max, Width.bits]

/-- The literal `0` is representable in every `T`. -/
theorem inRange_zero (T : IntTy) : T.InRange 0 := by
  rcases T with ⟨w, s⟩
  cases w <;> cases s <;> simp [InRange, min, max, Width.bits]

/-- `min ≤ max`, so both bounds are representable. -/
theorem min_le_max (T : IntTy) : T.min ≤ T.max := by
  rcases bounds_cases T with h | h | h | h | h | h | h | h <;> omega

/-- Conversion to `T` yields a value representable in `T`. -/
theorem convert_inRange (T : IntTy) (x : Int) : T.InRange (T.convert x) := by
  rcases T with ⟨w, s⟩
  cases w <;> cases s <;> simp [InRange, min, max, convert, Width.bits] <;> omega

/-- Conversion to `T` changes a value by a multiple of `2 ^ bits`. -/
theorem convert_congr (T : IntTy) (x : Int) : (2 ^ T.width.bits : Int) ∣ T.convert x - x := by
  rcases T with ⟨w, s⟩
  cases w <;> cases s <;> simp [convert, Width.bits] <;> omega

/-- Converting to the promoted type first does not change the conversion to `T`. -/
theorem convert_promote (T : IntTy) (x : Int) : T.convert (T.promote.convert x) = T.convert x := by
  rcases T with ⟨w, s⟩
  cases w <;> cases s <;> simp [convert, promote, int32_t, Width.bits] <;> omega

/-- The truncated remainder of the negated dividend is the negated remainder. -/
theorem neg_tmod (x y : Int) : (-x).tmod y = -(x.tmod y) := by
  rw [Int.tmod_def, Int.tmod_def, Int.neg_tdiv]; ring

/-- The remainder of the truncated division is smaller in magnitude than the
divisor and has the sign of the dividend. -/
theorem tmod_bounds (a b : Int) (hb : b ≠ 0) :
    (a.tmod b).natAbs < b.natAbs ∧ (0 ≤ a → 0 ≤ a.tmod b) ∧ (a ≤ 0 → a.tmod b ≤ 0) := by
  have key : ∀ x y : Int, 0 ≤ x → 0 < y → 0 ≤ x.tmod y ∧ x.tmod y < y :=
    fun x y hx hy => ⟨Int.tmod_nonneg y hx, Int.tmod_lt_of_pos x hy⟩
  have h0 : a = 0 → a.tmod b = 0 := by rintro rfl; simp
  rcases lt_or_gt_of_ne hb with hb | hb <;> rcases le_total 0 a with ha | ha
  · have := key a (-b) ha (by omega)
    rw [Int.tmod_neg] at this
    omega
  · have := key (-a) (-b) (by omega) (by omega)
    rw [Int.tmod_neg, neg_tmod] at this
    omega
  · have := key a b ha hb
    omega
  · have := key (-a) b (by omega) hb
    rw [neg_tmod] at this
    omega

/-- The truncated quotient is no larger in magnitude than the dividend, and at
most half of it when the divisor is neither `1` nor `-1`. -/
theorem tdiv_bound (a b : Int) (hb : b ≠ 0) :
    (a.tdiv b).natAbs ≤ a.natAbs
      ∧ (b ≠ 1 → b ≠ -1 → 2 * (a.tdiv b).natAbs ≤ a.natAbs) := by
  rw [Int.natAbs_tdiv]
  have h1 : a.natAbs / b.natAbs ≤ a.natAbs := Nat.div_le_self _ _
  refine ⟨h1, ?_⟩
  intro hb1 hb2
  have h2 : 2 ≤ b.natAbs := by omega
  have h3 : a.natAbs / b.natAbs * b.natAbs ≤ a.natAbs := Nat.div_mul_le_self _ _
  have h4 : a.natAbs / b.natAbs * 2 ≤ a.natAbs / b.natAbs * b.natAbs :=
    Nat.mul_le_mul_left _ h2
  show 2 * (a.natAbs / b.natAbs) ≤ a.natAbs
  omega

/-- For a signed `T`, the truncated quotient of `a` by `b != 0` is representable
in `T`, the pair `(min, -1)` apart. -/
theorem tdiv_inRange {T : IntTy} {a b : Int} (hs : T.signed = true) (ha : T.InRange a)
    (hb0 : b ≠ 0) (hne : ¬ (a = T.min ∧ b = -1)) : T.InRange (a.tdiv b) := by
  by_cases hb1 : b = 1
  · subst hb1
    simpa using ha
  · have hq := tdiv_bound a b hb0
    have hq1 := hq.1
    have hq2 := hq.2 hb1
    rcases T with ⟨w, s⟩
    subst hs
    cases w <;> simp [InRange, min, max, Width.bits] at ha hne ⊢ <;> omega

/-- The built-in division is defined when the divisor is not zero and the
truncated quotient is representable in the promoted type. -/
theorem div_eq_some {T : IntTy} {a b : Int} (hb0 : b ≠ 0)
    (h : T.promote.InRange (a.tdiv b)) : T.div a b = some (a.tdiv b) := by
  simp [div, hb0, h]

/-- For a `T` narrower than `int`, the truncated quotient of `a` of `T` by `b != 0`
is representable in the promoted type. -/
theorem tdiv_promote_inRange_of_narrow {T : IntTy} {a b : Int} (hn : T.width.bits < 32)
    (ha : T.InRange a) (hb0 : b ≠ 0) : T.promote.InRange (a.tdiv b) := by
  have hq := (tdiv_bound a b hb0).1
  rcases T with ⟨w, s⟩
  cases w <;> cases s <;>
    simp [InRange, min, max, promote, int32_t, Width.bits] at ha hn ⊢ <;> omega

/-- For an unsigned `T`, `min` is `0` and `max + 1` is `2 ^ bits`. -/
theorem unsigned_bounds {T : IntTy} (hs : T.signed = false) :
    T.min = 0 ∧ T.max + 1 = 2 ^ T.width.bits := by
  rcases T with ⟨w, s⟩
  subst hs
  cases w <;> simp [min, max, Width.bits]

end IntTy

namespace safe

variable {T : IntTy}

/-- The converting constructor applied to a value representable in `T` holds that
value. -/
theorem ctor_of_inRange {v : Int} (h : T.InRange v) : ctor T v = ⟨v⟩ := by
  simp [ctor, IntTy.convert_of_inRange h]

/-- The range checks of `operator +=` on operands in range, in terms of the
mathematical sum. -/
theorem operator_add_assign_eq {a b : Int} (ha : T.InRange a) (hb : T.InRange b) :
    operator_add_assign (T := T) ⟨a⟩ ⟨b⟩ =
      if 0 < b ∧ T.max < a + b then
        ⟨.error ⟨.overflow_exception, [a, b]⟩, ⟨a⟩⟩
      else if b < 0 ∧ a + b < T.min then
        ⟨.error ⟨.underflow_exception, [a, b]⟩, ⟨a⟩⟩
      else ⟨.ok ⟨a + b⟩, ⟨a + b⟩⟩ := by
  unfold operator_add_assign FC_CAPTURE_AND_THROW
  by_cases hpos : 0 < b
  · have hsub := IntTy.sub_max_of_pos hb hpos
    by_cases hov : T.max < a + b
    · have h1 : b > 0 ∧ a > T.sub T.max b := ⟨hpos, by rw [hsub]; omega⟩
      simp [h1, hpos, hov]
    · have h1 : ¬ (b > 0 ∧ a > T.sub T.max b) := by rw [hsub]; omega
      have h2 : ¬ (b < 0 ∧ a < T.sub T.min b) := by omega
      have hr : T.InRange (a + b) := ⟨by have := ha.1; omega, by omega⟩
      simp [h1, h2, hov, IntTy.convert_add_of_inRange hr, show ¬ b < 0 by omega]
  · by_cases hneg : b < 0
    · have hsub := IntTy.sub_min_of_neg hb hneg
      have h1 : ¬ (b > 0 ∧ a > T.sub T.max b) := by omega
      by_cases hun : a + b < T.min
      · have h2 : b < 0 ∧ a < T.sub T.min b := ⟨hneg, by rw [hsub]; omega⟩
        simp [h1, h2, hpos, hneg, hun]
      · have h2 : ¬ (b < 0 ∧ a < T.sub T.min b) := by rw [hsub]; omega
        have hr : T.InRange (a + b) := ⟨by omega, by have := ha.2; omega⟩
        simp [h1, h2, hpos, hun, IntTy.convert_add_of_inRange hr]
    · have hz : b = 0 := by omega
      subst hz
      have hr : T.InRange (a + 0) := by simpa using ha
      have hc := IntTy.convert_add_of_inRange hr
      simp at hc
      simp [hc]

/-- The range checks of `operator +` on operands in range, in terms of the
mathematical sum. -/
theorem operator_add_eq {a b : Int} (ha : T.InRange a) (hb : T.InRange b) :
    operator_add (T := T) ⟨a⟩ ⟨b⟩ =
      if 0 < b ∧ T.max < a + b then .error ⟨.overflow_exception, [a, b]⟩
      else if b < 0 ∧ a + b < T.min then .error ⟨.underflow_exception, [a, b]⟩
      else .ok ⟨a + b⟩ := by
  have h := operator_add_assign_eq ha hb
  unfold operator_add_assign FC_CAPTURE_AND_THROW at h
  unfold operator_add FC_CAPTURE_AND_THROW ctor
  split_ifs at h ⊢ <;> simp_all

/-- Unary `operator -` on a value of a signed `T` other than `min`. -/
theorem operator_neg_of_ne_min {b : Int} (hs : T.signed = true) (hb : T.InRange b)
    (hne : b ≠ T.min) : operator_neg (ctor T b) = .ok ⟨-b⟩ := by
  rw [ctor_of_inRange hb]
  simp [operator_neg, hne, ctor, IntTy.convert_neg_of_ne_min hs hb hne]

/-- For a signed `T` and `b` other than `min`, `operator -=` is `operator +=`
with the operand holding `-b`. -/
theorem operator_sub_assign_signed {b : Int} (self : safe T) (hs : T.signed = true)
    (hb : T.InRange b) (hne : b ≠ T.min) :
    operator_sub_assign self ⟨b⟩ = operator_add_assign self ⟨-b⟩ := by
  simp [operator_sub_assign, ctor, IntTy.convert_neg_of_ne_min hs hb hne]

/-- For an unsigned `T` and `b > 0`, `operator -=` is `operator +=` with the
operand holding `max + 1 - b`. -/
theorem operator_sub_assign_unsigned {b : Int} (self : safe T) (hs : T.signed = false)
    (hb : T.InRange b) (hpos : 0 < b) :
    operator_sub_assign self ⟨b⟩ = operator_add_assign self ⟨T.max + 1 - b⟩ := by
  simp [operator_sub_assign, ctor, IntTy.convert_neg_unsigned hs hb hpos]

/-- Binary `operator -` returns what `operator -=` leaves in the copy of `a`, or
throws what it throws. -/
theorem operator_sub_eq (a b : safe T) :
    operator_sub a b =
      match (operator_sub_assign a b).result with
      | .error e => .error e
      | .ok _ => .ok (operator_sub_assign a b).self := by
  unfold operator_sub
  rcases h : operator_sub_assign a b with ⟨r, s⟩
  cases r <;> simp [h]

/-- `operator -=` on operands of an unsigned `T` with `b > 0`: it throws
`overflow_exception` when `b ≤ a` and otherwise leaves `a - b + (max + 1)`. -/
theorem operator_sub_assign_unsigned_eq {a b : Int} (hs : T.signed = false)
    (ha : T.InRange a) (hb : T.InRange b) (hpos : 0 < b) :
    operator_sub_assign (T := T) ⟨a⟩ ⟨b⟩ =
      if b ≤ a then ⟨.error ⟨.overflow_exception, [a, T.max + 1 - b]⟩, ⟨a⟩⟩
      else ⟨.ok ⟨a - b + (T.max + 1)⟩, ⟨a - b + (T.max + 1)⟩⟩ := by
  have hmin := (IntTy.unsigned_bounds hs).1
  have ha1 := ha.1
  have ha2 := ha.2
  have hb2 := hb.2
  have hnb : T.InRange (T.max + 1 - b) := ⟨by omega, by omega⟩
  rw [operator_sub_assign_unsigned _ hs hb hpos, operator_add_assign_eq ha hnb]
  by_cases hle : b ≤ a
  · have h1 : 0 < T.max + 1 - b ∧ T.max < a + (T.max + 1 - b) := ⟨by omega, by omega⟩
    rw [if_pos h1, if_pos hle]
  · have h1 : ¬ (0 < T.max + 1 - b ∧ T.max < a + (T.max + 1 - b)) := by omega
    have h2 : ¬ (T.max + 1 - b < 0 ∧ a + (T.max + 1 - b) < T.min) := by omega
    have hv : a + (T.max + 1 - b) = a - b + (T.max + 1) := by omega
    rw [if_neg h1, if_neg h2, if_neg hle, hv]

/-- `operator -=` with an operand holding `0` leaves the object as it is. -/
theorem operator_sub_assign_zero {a : Int} (ha : T.InRange a) :
    operator_sub_assign (T := T) ⟨a⟩ ⟨0⟩ = ⟨.ok ⟨a⟩, ⟨a⟩⟩ := by
  have hz : ctor T (T.neg 0) = ⟨0⟩ := by
    simp [ctor, IntTy.neg, IntTy.convert_promote, IntTy.convert_of_inRange T.inRange_zero]
  unfold operator_sub_assign
  rw [hz, operator_add_assign_eq ha T.inRange_zero]
  simp

end safe

/-! ## Theorems -/

/-- C1: for a signed `T` and `a`, `b` of `T` whose mathematical sum is representable
in `T`, `safe(a) + safe(b)` throws nothing and returns the safe value holding
`a + b`. -/
theorem operator_add_exact (T : IntTy) (a b : Int) (_hs : T.signed = true)
    (ha : T.InRange a) (hb : T.InRange b) (hsum : T.InRange (a + b)) :
    safe.operator_add (safe.ctor T a) (safe.ctor T b) = .ok ⟨a + b⟩ := by
  rw [safe.ctor_of_inRange ha, safe.ctor_of_inRange hb, safe.operator_add_eq ha hb]
  have h1 : ¬ (0 < b ∧ T.max < a + b) := by have := hsum.2; omega
  have h2 : ¬ (b < 0 ∧ a + b < T.min) := by have := hsum.1; omega
  simp [h1, h2]

/-- Witness of C1 at `int8_t`: `safe(100) + safe(27)` is `safe(127)`. -/
theorem operator_add_exact_witness :
    IntTy.int8_t.signed = true ∧ IntTy.int8_t.InRange 100 ∧ IntTy.int8_t.InRange 27
      ∧ IntTy.int8_t.InRange (100 + 27)
      ∧ safe.operator_add (safe.ctor IntTy.int8_t 100) (safe.ctor IntTy.int8_t 27)
          = .ok ⟨100 + 27⟩ :=
  ⟨rfl, by decide, by decide, by decide,
    operator_add_exact IntTy.int8_t 100 27 rfl (by decide) (by decide) (by decide)⟩

/-- C2: for a signed `T` and `a`, `b` of `T`, `safe(a) + safe(b)` throws
`overflow_exception` exactly when the mathematical sum exceeds `max`, and
`underflow_exception` exactly when the mathematical sum is below `min`; in
particular `max + b` overflows for every `b > 0` and `min + b` underflows for
every `b < 0`. -/
theorem operator_add_throws_iff (T : IntTy) (a b : Int) (_hs : T.signed = true)
    (ha : T.InRange a) (hb : T.InRange b) :
    ((∃ c, safe.operator_add (safe.ctor T a) (safe.ctor T b)
          = .error ⟨.overflow_exception, c⟩) ↔ T.max < a + b)
      ∧ ((∃ c, safe.operator_add (safe.ctor T a) (safe.ctor T b)
          = .error ⟨.underflow_exception, c⟩) ↔ a + b < T.min)
      ∧ (0 < b → ∃ c, safe.operator_add (safe.max T) (safe.ctor T b)
          = .error ⟨.overflow_exception, c⟩)
      ∧ (b < 0 → ∃ c, safe.operator_add (safe.min T) (safe.ctor T b)
          = .error ⟨.underflow_exception, c⟩) := by
  have hmax : T.InRange T.max := ⟨T.min_le_max, le_refl _⟩
  have hmin : T.InRange T.min := ⟨le_refl _, T.min_le_max⟩
  unfold safe.max safe.min
  rw [safe.ctor_of_inRange ha, safe.ctor_of_inRange hb, safe.ctor_of_inRange hmax,
    safe.ctor_of_inRange hmin, safe.operator_add_eq ha hb, safe.operator_add_eq hmax hb,
    safe.operator_add_eq hmin hb]
  have ha1 := ha.1
  have ha2 := ha.2
  have hb1 := hb.1
  have hb2 := hb.2
  refine ⟨⟨?_, ?_⟩, ⟨?_, ?_⟩, ?_, ?_⟩
  · rintro ⟨c, hc⟩
    split_ifs at hc with h1 h2
    · exact h1.2
    · simp at hc
  · intro h
    have h1 : 0 < b ∧ T.max < a + b := ⟨by omega, h⟩
    exact ⟨[a, b], by simp [h1]⟩
  · rintro ⟨c, hc⟩
    split_ifs at hc with h1 h2
    · simp at hc
    · exact h2.2
  · intro h
    have h1 : ¬ (0 < b ∧ T.max < a + b) := by omega
    have h2 : b < 0 ∧ a + b < T.min := ⟨by omega, h⟩
    exact ⟨[a, b], by simp [h1, h2]⟩
  · intro h
    have h1 : 0 < b ∧ T.max < T.max + b := ⟨h, by omega⟩
    exact ⟨[T.max, b], by simp [h1]⟩
  · intro h
    have h1 : ¬ (0 < b ∧ T.max < T.min + b) := by omega
    have h2 : b < 0 ∧ T.min + b < T.min := ⟨h, by omega⟩
    exact ⟨[T.min, b], by simp [h1, h2]⟩

/-- Witness of C2 at `int8_t` with `a = 127`, `b = 1`. -/
theorem operator_add_throws_iff_witness :
    IntTy.int8_t.signed = true ∧ IntTy.int8_t.InRange 127 ∧ IntTy.int8_t.InRange 1
      ∧ (∃ c, safe.operator_add (safe.ctor IntTy.int8_t 127) (safe.ctor IntTy.int8_t 1)
          = .error ⟨.overflow_exception, c⟩)
      ∧ (∃ c, safe.operator_add (safe.ctor IntTy.int8_t (-128)) (safe.ctor IntTy.int8_t (-1))
          = .error ⟨.underflow_exception, c⟩) :=
  ⟨rfl, by decide, by decide,
    (operator_add_throws_iff IntTy.int8_t 127 1 rfl (by decide) (by decide)).1.2
      (by decide),
    (operator_add_throws_iff IntTy.int8_t (-128) (-1) rfl (by decide) (by decide)).2.1.2
      (by decide)⟩

/-- C3: at `int8_t`, `safe(5) - safe(-128)` throws nothing and returns the safe
value holding `-123`, while the mathematical difference is `133`. -/
theorem operator_sub_wraps_at_min :
    safe.operator_sub (safe.ctor IntTy.int8_t 5) (safe.ctor IntTy.int8_t (-128))
        = .ok ⟨-123⟩
      ∧ (-123 : Int) ≠ 5 - (-128) := by
  decide

/-- C4: at `int8_t`, subtracting `min` never throws `overflow_exception`:
`safe(0) - safe::min()` and `a -= safe::min()` for `a` holding `0` return the
safe value holding `-128`, and `safe(-1) - safe::min()` throws
`underflow_exception`. -/
theorem operator_sub_min_no_overflow :
    safe.operator_sub (safe.ctor IntTy.int8_t 0) (safe.min IntTy.int8_t) = .ok ⟨-128⟩
      ∧ safe.operator_sub_assign (safe.ctor IntTy.int8_t 0) (safe.min IntTy.int8_t)
          = ⟨.ok ⟨-128⟩, ⟨-128⟩⟩
      ∧ safe.operator_sub (safe.ctor IntTy.int8_t (-1)) (safe.min IntTy.int8_t)
          = .error ⟨.underflow_exception, [-1, -128]⟩ := by
  decide

/-- C5: for a signed `T`, `-safe::min()` throws `overflow_exception`, and for
every other `v` of `T`, `-safe(v)` throws nothing and returns the safe value
holding `-v`. -/
theorem operator_neg_spec (T : IntTy) (hs : T.signed = true) :
    safe.operator_neg (safe.min T) = .error ⟨.overflow_exception, [T.min]⟩
      ∧ ∀ v : Int, T.InRange v → v ≠ T.min →
          safe.operator_neg (safe.ctor T v) = .ok ⟨-v⟩ := by
  have hmin : T.InRange T.min := ⟨le_refl _, T.min_le_max⟩
  refine ⟨?_, ?_⟩
  · simp [safe.min, safe.ctor_of_inRange hmin, safe.operator_neg, FC_CAPTURE_AND_THROW]
  · intro v hv hne
    exact safe.operator_neg_of_ne_min hs hv hne

/-- Witness of C5 at `int8_t`: `-safe(-128)` throws `overflow_exception` and
`-safe(-127)` is `safe(127)`. -/
theorem operator_neg_spec_witness :
    IntTy.int8_t.signed = true
      ∧ safe.operator_neg (safe.ctor IntTy.int8_t (-128))
          = .error ⟨.overflow_exception, [-128]⟩
      ∧ IntTy.int8_t.InRange (-127) ∧ (-127 : Int) ≠ IntTy.int8_t.min
      ∧ safe.operator_neg (safe.ctor IntTy.int8_t (-127)) = .ok (safe.ctor IntTy.int8_t 127) :=
  ⟨rfl, (operator_neg_spec IntTy.int8_t rfl).1, by decide, by decide,
    (operator_neg_spec IntTy.int8_t rfl).2 (-127) (by decide) (by decide)⟩

/-- C6: for a signed `T`, `a` of `T` and `b` of `T` other than `min`, the
expressions `safe(a) - safe(b)` and `safe(a) + (-safe(b))` have the same outcome:
the same returned value or the same thrown exception; the negation in the second
one throws nothing. -/
theorem operator_sub_eq_add_neg (T : IntTy) (a b : Int) (hs : T.signed = true)
    (ha : T.InRange a) (hb : T.InRange b) (hne : b ≠ T.min) :
    safe.operator_sub (safe.ctor T a) (safe.ctor T b)
        = (safe.operator_neg (safe.ctor T b)).bind
            (fun nb => safe.operator_add (safe.ctor T a) nb)
      ∧ safe.operator_neg (safe.ctor T b) = .ok ⟨-b⟩ := by
  have hneg := safe.operator_neg_of_ne_min hs hb hne
  have hnb : T.InRange (-b) := IntTy.inRange_neg hs hb hne
  refine ⟨?_, hneg⟩
  rw [hneg]
  simp only [Except.bind]
  rw [safe.ctor_of_inRange ha, safe.ctor_of_inRange hb, safe.operator_add_eq ha hnb]
  unfold safe.operator_sub safe.operator_sub_assign
  simp only [safe.ctor, IntTy.convert_neg_of_ne_min hs hb hne]
  rw [safe.operator_add_assign_eq ha hnb]
  split_ifs <;> rfl

/-- Witness of C6 at `int8_t`: `safe(5) - safe(3)` and `safe(5) + (-safe(3))` are
both `safe(2)`. -/
theorem operator_sub_eq_add_neg_witness :
    IntTy.int8_t.signed = true ∧ IntTy.int8_t.InRange 5 ∧ IntTy.int8_t.InRange 3
      ∧ (3 : Int) ≠ IntTy.int8_t.min
      ∧ safe.operator_sub (safe.ctor IntTy.int8_t 5) (safe.ctor IntTy.int8_t 3) = .ok ⟨2⟩
      ∧ safe.operator_sub (safe.ctor IntTy.int8_t 5) (safe.ctor IntTy.int8_t 3)
          = (safe.operator_neg (safe.ctor IntTy.int8_t 3)).bind
              (fun nb => safe.operator_add (safe.ctor IntTy.int8_t 5) nb) :=
  ⟨rfl, by decide, by decide, by decide, by decide,
    (operator_sub_eq_add_neg IntTy.int8_t 5 3 rfl (by decide) (by decide) (by decide)).1⟩

/-- C7: at `uint8_t`, `safe(0) - safe(1)` and `safe(3) - safe(5)`, whose true
differences are below zero, throw nothing: they return the safe values holding
`255` and `254`. -/
theorem operator_sub_unsigned_wraps :
    safe.operator_sub (safe.ctor IntTy.uint8_t 0) (safe.ctor IntTy.uint8_t 1) = .ok ⟨255⟩
      ∧ safe.operator_sub (safe.ctor IntTy.uint8_t 3) (safe.ctor IntTy.uint8_t 5)
          = .ok ⟨254⟩ := by
  decide

/-- C8: whenever one of `a += b`, `a -= b`, `a /= b`, `++a`, `a++`, `--a`, `a--`
throws, the object `a` after the call is the object before the call. The operand
`b` is an argument that no operator writes to. -/
theorem throw_leaves_operand_unchanged (T : IntTy) (a b : safe T) :
    (∀ e, (a.operator_add_assign b).result = .error e → (a.operator_add_assign b).self = a)
      ∧ (∀ e, (a.operator_sub_assign b).result = .error e
          → (a.operator_sub_assign b).self = a)
      ∧ (∀ o e, a.operator_div_assign b = some o → o.result = .error e → o.self = a)
      ∧ (∀ e, a.operator_pre_inc.result = .error e → a.operator_pre_inc.self = a)
      ∧ (∀ e, a.operator_post_inc.result = .error e → a.operator_post_inc.self = a)
      ∧ (∀ e, a.operator_pre_dec.result = .error e → a.operator_pre_dec.self = a)
      ∧ (∀ e, a.operator_post_dec.result = .error e → a.operator_post_dec.self = a) := by
  have key : ∀ (x y : safe T) (e : exception),
      (x.operator_add_assign y).result = .error e → (x.operator_add_assign y).self = x := by
    intro x y e h
    unfold safe.operator_add_assign at h ⊢
    split_ifs at h ⊢ <;> rfl
  have post : ∀ (x y : safe T) (e : exception),
      (match x.operator_add_assign y with
        | ⟨.error e1, s⟩ => (⟨.error e1, s⟩ : Outcome T (safe T))
        | ⟨.ok _, s⟩ => ⟨.ok x, s⟩).result = .error e →
      (match x.operator_add_assign y with
        | ⟨.error e1, s⟩ => (⟨.error e1, s⟩ : Outcome T (safe T))
        | ⟨.ok _, s⟩ => ⟨.ok x, s⟩).self = x := by
    intro x y e h
    have hk := key x y
    rcases hxy : x.operator_add_assign y with ⟨r, s⟩
    rw [hxy] at h hk
    cases r with
    | error e1 => exact hk e1 rfl
    | ok v => simp at h
  refine ⟨key a b, ?_, ?_, ?_, ?_, ?_, ?_⟩
  · exact key a _
  · intro o e ho h
    unfold safe.operator_div_assign FC_ASSERT at ho
    by_cases hb : (b.value != 0) = true
    · cases hd : T.div a.value b.value with
      | none => simp [hb, hd] at ho
      | some q =>
        simp [hb, hd] at ho
        subst ho
        simp at h
    · simp [hb] at ho
      subst ho
      rfl
  · exact key a _
  · exact post a _
  · exact key a _
  · exact post a _

/-- Witness of C8 at `int8_t`: `a += b` with `a` holding `127` and `b` holding `1`
throws `overflow_exception` and leaves `a` holding `127`. -/
theorem throw_leaves_operand_unchanged_witness :
    ((⟨127⟩ : safe IntTy.int8_t).operator_add_assign ⟨1⟩).result
        = .error ⟨.overflow_exception, [127, 1]⟩
      ∧ ((⟨127⟩ : safe IntTy.int8_t).operator_add_assign ⟨1⟩).self = ⟨127⟩ :=
  ⟨by decide,
    (throw_leaves_operand_unchanged IntTy.int8_t ⟨127⟩ ⟨1⟩).1 ⟨.overflow_exception, [127, 1]⟩
      (by decide)⟩

/-- C9: for every `T` and every object `a`, `a /= safe(0)` throws the assertion
exception, the same one whatever `a` holds. -/
theorem operator_div_assign_zero (T : IntTy) (a : safe T) :
    a.operator_div_assign (safe.ctor T 0) = some ⟨.error ⟨.assert_exception, []⟩, a⟩ := by
  have h0 : safe.ctor T 0 = ⟨0⟩ := safe.ctor_of_inRange T.inRange_zero
  rw [h0]
  simp [safe.operator_div_assign, FC_ASSERT]

/-- C10: for every `T`, `++a` with `a` holding `max` throws `overflow_exception`,
and with `a` holding `v < max` it throws nothing, leaves `a` holding `v + 1` and
returns that updated value. -/
theorem operator_pre_inc_spec (T : IntTy) :
    (safe.max T).operator_pre_inc.result = .error ⟨.overflow_exception, [T.max, 1]⟩
      ∧ ∀ v : Int, T.InRange v → v < T.max →
          (safe.ctor T v).operator_pre_inc = ⟨.ok ⟨v + 1⟩, ⟨v + 1⟩⟩ := by
  have hmax : T.InRange T.max := ⟨T.min_le_max, le_refl _⟩
  have h1 : safe.ctor T 1 = ⟨1⟩ := safe.ctor_of_inRange T.inRange_one
  refine ⟨?_, ?_⟩
  · unfold safe.operator_pre_inc safe.max
    rw [h1, safe.ctor_of_inRange hmax, safe.operator_add_assign_eq hmax T.inRange_one]
    simp
  · intro v hv hlt
    unfold safe.operator_pre_inc
    rw [h1, safe.ctor_of_inRange hv, safe.operator_add_assign_eq hv T.inRange_one]
    have hn : ¬ T.max < v + 1 := by omega
    simp [hn]

/-- Witness of C10 at `uint8_t`: `++a` with `a` holding `254` leaves and returns
`255`; with `a` holding `255` it throws `overflow_exception`. -/
theorem operator_pre_inc_spec_witness :
    IntTy.uint8_t.InRange 254 ∧ (254 : Int) < IntTy.uint8_t.max
      ∧ (safe.ctor IntTy.uint8_t 254).operator_pre_inc = ⟨.ok ⟨254 + 1⟩, ⟨254 + 1⟩⟩
      ∧ (safe.ctor IntTy.uint8_t 255).operator_pre_inc.result
          = .error ⟨.overflow_exception, [255, 1]⟩ :=
  ⟨by decide, by decide, (operator_pre_inc_spec IntTy.uint8_t).2 254 (by decide) (by decide),
    (operator_pre_inc_spec IntTy.uint8_t).1⟩

/-- C11: for a signed `T`, `--a` with `a` holding `min` throws
`underflow_exception`, and with `a` holding `v > min` it throws nothing, leaves
`a` holding `v - 1` and returns that updated value. -/
theorem operator_pre_dec_spec (T : IntTy) (hs : T.signed = true) :
    (safe.min T).operator_pre_dec.result = .error ⟨.underflow_exception, [T.min, -1]⟩
      ∧ ∀ v : Int, T.InRange v → T.min < v →
          (safe.ctor T v).operator_pre_dec = ⟨.ok ⟨v - 1⟩, ⟨v - 1⟩⟩ := by
  have hmin : T.InRange T.min := ⟨le_refl _, T.min_le_max⟩
  have h1 : safe.ctor T 1 = ⟨1⟩ := safe.ctor_of_inRange T.inRange_one
  have hne : (1 : Int) ≠ T.min := by
    rcases T with ⟨w, s⟩
    cases w <;> cases s <;> simp [IntTy.min, Width.bits]
  have hm1 : T.InRange (-1) := IntTy.inRange_neg hs T.inRange_one hne
  refine ⟨?_, ?_⟩
  · unfold safe.operator_pre_dec safe.min
    rw [h1, safe.ctor_of_inRange hmin, safe.operator_sub_assign_signed _ hs T.inRange_one hne,
      safe.operator_add_assign_eq hmin hm1]
    simp
  · intro v hv hlt
    unfold safe.operator_pre_dec
    rw [h1, safe.ctor_of_inRange hv, safe.operator_sub_assign_signed _ hs T.inRange_one hne,
      safe.operator_add_assign_eq hv hm1]
    have hn1 : ¬ (0 < (-1 : Int) ∧ T.max < v + -1) := by omega
    have hn2 : ¬ ((-1 : Int) < 0 ∧ v + -1 < T.min) := by omega
    have hsub : v + -1 = v - 1 := by omega
    rw [if_neg hn1, if_neg hn2, hsub]

/-- Witness of C11 at `int8_t`: `--a` with `a` holding `-127` leaves and returns
`-128`; with `a` holding `-128` it throws `underflow_exception`. -/
theorem operator_pre_dec_spec_witness :
    IntTy.int8_t.signed = true ∧ IntTy.int8_t.InRange (-127)
      ∧ IntTy.int8_t.min < (-127 : Int)
      ∧ (safe.ctor IntTy.int8_t (-127)).operator_pre_dec = ⟨.ok ⟨-127 - 1⟩, ⟨-127 - 1⟩⟩
      ∧ (safe.ctor IntTy.int8_t (-128)).operator_pre_dec.result
          = .error ⟨.underflow_exception, [-128, -1]⟩ :=
  ⟨rfl, by decide, by decide,
    (operator_pre_dec_spec IntTy.int8_t rfl).2 (-127) (by decide) (by decide),
    (operator_pre_dec_spec IntTy.int8_t rfl).1⟩

/-- C12: for every `T` and every object `a`, `a++` leaves `a` in the state that
`++a` leaves it in and throws exactly what `++a` throws; when `++a` returns,
`a++` returns the safe value that `a` held before the call. The same holds for
`a--` and `--a`. -/
theorem operator_post_eq_pre (T : IntTy) (a : safe T) :
    a.operator_post_inc.self = a.operator_pre_inc.self
      ∧ a.operator_post_inc.result = a.operator_pre_inc.result.map (fun _ => a)
      ∧ a.operator_post_dec.self = a.operator_pre_dec.self
      ∧ a.operator_post_dec.result = a.operator_pre_dec.result.map (fun _ => a) := by
  unfold safe.operator_post_inc safe.operator_pre_inc safe.operator_post_dec
    safe.operator_pre_dec
  rcases hi : a.operator_add_assign (safe.ctor T 1) with ⟨ri, si⟩
  rcases hd : a.operator_sub_assign (safe.ctor T 1) with ⟨rd, sd⟩
  cases ri <;> cases rd <;> simp [Except.map]

/-- C13: each of the eighteen comparison operators returns the comparison of the
underlying values, for (safe, safe), (safe, raw) and (raw, safe) operands; a safe
value compared with the raw value it holds gives `true` for `==`, `<=`, `>=` and
`false` for `!=`, `<`, `>`, in both operand orders. -/
theorem comparison_operators_spec (T : IntTy) (a b : Int) :
    (safe.operator_eq (T := T) ⟨a⟩ ⟨b⟩ = decide (a = b)
        ∧ safe.operator_eq_raw (T := T) ⟨a⟩ b = decide (a = b)
        ∧ safe.raw_operator_eq (T := T) a ⟨b⟩ = decide (a = b))
      ∧ (safe.operator_ne (T := T) ⟨a⟩ ⟨b⟩ = decide (a ≠ b)
        ∧ safe.operator_ne_raw (T := T) ⟨a⟩ b = decide (a ≠ b)
        ∧ safe.raw_operator_ne (T := T) a ⟨b⟩ = decide (a ≠ b))
      ∧ (safe.operator_lt (T := T) ⟨a⟩ ⟨b⟩ = decide (a < b)
        ∧ safe.operator_lt_raw (T := T) ⟨a⟩ b = decide (a < b)
        ∧ safe.raw_operator_lt (T := T) a ⟨b⟩ = decide (a < b))
      ∧ (safe.operator_gt (T := T) ⟨a⟩ ⟨b⟩ = decide (a > b)
        ∧ safe.operator_gt_raw (T := T) ⟨a⟩ b = decide (a > b)
        ∧ safe.raw_operator_gt (T := T) a ⟨b⟩ = decide (a > b))
      ∧ (safe.operator_le (T := T) ⟨a⟩ ⟨b⟩ = decide (a ≤ b)
        ∧ safe.operator_le_raw (T := T) ⟨a⟩ b = decide (a ≤ b)
        ∧ safe.raw_operator_le (T := T) a ⟨b⟩ = decide (a ≤ b))
      ∧ (safe.operator_ge (T := T) ⟨a⟩ ⟨b⟩ = decide (a ≥ b)
        ∧ safe.operator_ge_raw (T := T) ⟨a⟩ b = decide (a ≥ b)
        ∧ safe.raw_operator_ge (T := T) a ⟨b⟩ = decide (a ≥ b))
      ∧ (safe.operator_eq_raw (T := T) ⟨a⟩ a = true ∧ safe.raw_operator_eq (T := T) a ⟨a⟩ = true
        ∧ safe.operator_le_raw (T := T) ⟨a⟩ a = true ∧ safe.raw_operator_le (T := T) a ⟨a⟩ = true
        ∧ safe.operator_ge_raw (T := T) ⟨a⟩ a = true ∧ safe.raw_operator_ge (T := T) a ⟨a⟩ = true)
      ∧ (safe.operator_ne_raw (T := T) ⟨a⟩ a = false
        ∧ safe.raw_operator_ne (T := T) a ⟨a⟩ = false
        ∧ safe.operator_lt_raw (T := T) ⟨a⟩ a = false
        ∧ safe.raw_operator_lt (T := T) a ⟨a⟩ = false
        ∧ safe.operator_gt_raw (T := T) ⟨a⟩ a = false
        ∧ safe.raw_operator_gt (T := T) a ⟨a⟩ = false) := by
  have hbeq : ∀ x y : Int, (x == y) = decide (x = y) := fun _ _ => rfl
  simp [safe.operator_eq, safe.operator_eq_raw, safe.raw_operator_eq, safe.operator_ne,
    safe.operator_ne_raw, safe.raw_operator_ne, safe.operator_lt, safe.operator_lt_raw,
    safe.raw_operator_lt, safe.operator_gt, safe.operator_gt_raw, safe.raw_operator_gt,
    safe.operator_le, safe.operator_le_raw, safe.raw_operator_le, safe.operator_ge,
    safe.operator_ge_raw, safe.raw_operator_ge, bne, hbeq]

/-- C14: for every `T` and `a`, `b` of `T`, `a *= b` throws nothing and leaves in
`a`, and returns, the value of `T` congruent to the product `a * b` modulo
`2 ^ bits`; that value is `a * b` whenever `a * b` is representable in `T`, and
for some operands of `T` it is not the mathematical product. -/
theorem operator_mul_assign_spec (T : IntTy) (a b : Int) (ha : T.InRange a)
    (hb : T.InRange b) :
    (∃ r : Int, (safe.ctor T a).operator_mul_assign (safe.ctor T b) = ⟨.ok ⟨r⟩, ⟨r⟩⟩
        ∧ T.InRange r ∧ (2 ^ T.width.bits : Int) ∣ r - a * b
        ∧ (T.InRange (a * b) → r = a * b))
      ∧ ∃ x y : Int, T.InRange x ∧ T.InRange y
          ∧ ((safe.ctor T x).operator_mul_assign (safe.ctor T y)).self.value ≠ x * y := by
  have hmax : T.InRange T.max := ⟨T.min_le_max, le_refl _⟩
  have h2 : T.InRange 2 := by
    rcases T.bounds_cases with h | h | h | h | h | h | h | h <;> exact ⟨by omega, by omega⟩
  refine ⟨⟨T.convert (a * b), ?_, T.convert_inRange _, T.convert_congr _, ?_⟩,
    ⟨T.max, 2, hmax, h2, ?_⟩⟩
  · rw [safe.ctor_of_inRange ha, safe.ctor_of_inRange hb]
    simp [safe.operator_mul_assign, IntTy.mul, IntTy.convert_promote]
  · intro hab
    exact IntTy.convert_of_inRange hab
  · rw [safe.ctor_of_inRange hmax, safe.ctor_of_inRange h2]
    simp only [safe.operator_mul_assign, IntTy.mul, IntTy.convert_promote]
    have hle := (T.convert_inRange (T.max * 2)).2
    rcases T.bounds_cases with h | h | h | h | h | h | h | h <;> omega

/-- Witness of C14 at `int8_t`: `a *= b` with `a` holding `5` and `b` holding `7`
leaves `35`, and with both holding `16` it leaves `0`, not `256`. -/
theorem operator_mul_assign_spec_witness :
    IntTy.int8_t.InRange 5 ∧ IntTy.int8_t.InRange 7 ∧ IntTy.int8_t.InRange (5 * 7)
      ∧ (safe.ctor IntTy.int8_t 5).operator_mul_assign (safe.ctor IntTy.int8_t 7)
        = ⟨.ok ⟨5 * 7⟩, ⟨5 * 7⟩⟩
      ∧ (safe.ctor IntTy.int8_t 16).operator_mul_assign (safe.ctor IntTy.int8_t 16)
        = ⟨.ok ⟨0⟩, ⟨0⟩⟩ := by
  obtain ⟨⟨r, hr, _, _, hex⟩, _⟩ :=
    operator_mul_assign_spec IntTy.int8_t 5 7 (by decide) (by decide)
  have h := hex (by decide)
  rw [h] at hr
  exact ⟨by decide, by decide, by decide, hr, by decide⟩

/-- C15 as stated fails at `int32_t`: with `a` holding `min` and `b` holding `-1`,
both of `T` and `b != 0`, the quotient is not representable in `int` and the
call `a /= b` has no outcome, so it does not return. -/
theorem operator_div_assign_min_neg_one :
    IntTy.int32_t.signed = true ∧ IntTy.int32_t.InRange (-2147483648)
      ∧ IntTy.int32_t.InRange (-1) ∧ (-1 : Int) ≠ 0
      ∧ (safe.ctor IntTy.int32_t (-2147483648)).operator_div_assign
          (safe.ctor IntTy.int32_t (-1)) = none
      ∧ ¬ ∃ r, (safe.ctor IntTy.int32_t (-2147483648)).operator_div_assign
          (safe.ctor IntTy.int32_t (-1)) = some ⟨.ok r, r⟩ := by
  have hcall : (safe.ctor IntTy.int32_t (-2147483648)).operator_div_assign
      (safe.ctor IntTy.int32_t (-1)) = none := by decide
  refine ⟨rfl, by decide, by decide, by decide, hcall, ?_⟩
  rintro ⟨r, hr⟩
  rw [hcall] at hr
  cases hr

/-- C15, amended: for a signed `T` and `a`, `b` of `T` with `b != 0`: for every pair
other than `(min, -1)`, `a /= b` throws nothing and leaves in `a`, and returns,
the quotient of `a` by `b` truncated toward zero, which is representable in `T`
(the remainder `a - q * b` is smaller in magnitude than `b` and has the sign of
`a`); and when `T` is narrower than `int`, `a /= b` throws nothing for every
pair. -/
theorem operator_div_assign_spec (T : IntTy) (a b : Int) (hs : T.signed = true)
    (ha : T.InRange a) (hb : T.InRange b) (hb0 : b ≠ 0) :
    (¬ (a = T.min ∧ b = -1) →
        (safe.ctor T a).operator_div_assign (safe.ctor T b)
            = some ⟨.ok ⟨a.tdiv b⟩, ⟨a.tdiv b⟩⟩
          ∧ T.InRange (a.tdiv b)
          ∧ ∃ rem : Int, a = a.tdiv b * b + rem ∧ rem.natAbs < b.natAbs
              ∧ (0 ≤ a → 0 ≤ rem) ∧ (a ≤ 0 → rem ≤ 0))
      ∧ (T.width.bits < 32 →
          ∃ r, (safe.ctor T a).operator_div_assign (safe.ctor T b) = some ⟨.ok r, r⟩) := by
  have hcall : T.promote.InRange (a.tdiv b) →
      (safe.ctor T a).operator_div_assign (safe.ctor T b)
        = some ⟨.ok ⟨T.convert (a.tdiv b)⟩, ⟨T.convert (a.tdiv b)⟩⟩ := by
    intro hq
    rw [safe.ctor_of_inRange ha, safe.ctor_of_inRange hb]
    simp [safe.operator_div_assign, FC_ASSERT, hb0, IntTy.div_eq_some hb0 hq]
  refine ⟨?_, ?_⟩
  · intro hne
    have hq := IntTy.tdiv_inRange hs ha hb0 hne
    rw [hcall (IntTy.promote_inRange hq), IntTy.convert_of_inRange hq]
    refine ⟨rfl, hq, a.tmod b, ?_, IntTy.tmod_bounds a b hb0⟩
    have := Int.tdiv_add_tmod' a b
    omega
  · intro hn
    exact ⟨_, hcall (IntTy.tdiv_promote_inRange_of_narrow hn ha hb0)⟩

/-- Witness of C15 at `int8_t`: `a /= b` with `a` holding `-7` and `b` holding `2`
leaves and returns `-3`; with `a` holding `-128` and `b` holding `-1` it throws
nothing. -/
theorem operator_div_assign_spec_witness :
    IntTy.int8_t.signed = true ∧ IntTy.int8_t.InRange (-7) ∧ IntTy.int8_t.InRange 2
      ∧ (2 : Int) ≠ 0 ∧ ¬ ((-7 : Int) = IntTy.int8_t.min ∧ (2 : Int) = -1)
      ∧ (-7 : Int).tdiv 2 = -3
      ∧ (safe.ctor IntTy.int8_t (-7)).operator_div_assign (safe.ctor IntTy.int8_t 2)
          = some ⟨.ok ⟨(-7 : Int).tdiv 2⟩, ⟨(-7 : Int).tdiv 2⟩⟩
      ∧ IntTy.int8_t.InRange (-128) ∧ IntTy.int8_t.InRange (-1) ∧ (-1 : Int) ≠ 0
      ∧ IntTy.int8_t.width.bits < 32
      ∧ (∃ r, (safe.ctor IntTy.int8_t (-128)).operator_div_assign
          (safe.ctor IntTy.int8_t (-1)) = some ⟨.ok r, r⟩) :=
  ⟨rfl, by decide, by decide, by decide, by decide, by decide,
    ((operator_div_assign_spec IntTy.int8_t (-7) 2 rfl (by decide) (by decide)
      (by decide)).1 (by decide)).1,
    by decide, by decide, by decide, by decide,
    (operator_div_assign_spec IntTy.int8_t (-128) (-1) rfl (by decide) (by decide)
      (by decide)).2 (by decide)⟩

/-- C16: for an unsigned `T` and `a`, `b` of `T`, `safe(a) + safe(b)` never throws
`underflow_exception`; it throws `overflow_exception` exactly when the
mathematical sum exceeds `max`, and otherwise returns the safe value holding
`a + b`. -/
theorem operator_add_unsigned_spec (T : IntTy) (a b : Int) (hs : T.signed = false)
    (ha : T.InRange a) (hb : T.InRange b) :
    (¬ ∃ c, safe.operator_add (safe.ctor T a) (safe.ctor T b)
          = .error ⟨.underflow_exception, c⟩)
      ∧ ((∃ c, safe.operator_add (safe.ctor T a) (safe.ctor T b)
          = .error ⟨.overflow_exception, c⟩) ↔ T.max < a + b)
      ∧ (a + b ≤ T.max →
          safe.operator_add (safe.ctor T a) (safe.ctor T b) = .ok ⟨a + b⟩) := by
  have hmin := (IntTy.unsigned_bounds hs).1
  have ha1 := ha.1
  have ha2 := ha.2
  have hb1 := hb.1
  have hb2 := hb.2
  rw [safe.ctor_of_inRange ha, safe.ctor_of_inRange hb, safe.operator_add_eq ha hb]
  have hnb : ¬ (b < 0 ∧ a + b < T.min) := by omega
  rw [if_neg hnb]
  refine ⟨?_, ⟨?_, ?_⟩, ?_⟩
  · rintro ⟨c, hc⟩
    split_ifs at hc
    simp at hc
  · rintro ⟨c, hc⟩
    split_ifs at hc with h1
    exact h1.2
  · intro h
    have h1 : 0 < b ∧ T.max < a + b := ⟨by omega, h⟩
    exact ⟨[a, b], by rw [if_pos h1]⟩
  · intro h
    have h1 : ¬ (0 < b ∧ T.max < a + b) := by omega
    rw [if_neg h1]

/-- Witness of C16 at `uint8_t`: `safe(200) + safe(55)` is `safe(255)` and
`safe(200) + safe(56)` throws `overflow_exception`. -/
theorem operator_add_unsigned_spec_witness :
    IntTy.uint8_t.signed = false ∧ IntTy.uint8_t.InRange 200 ∧ IntTy.uint8_t.InRange 55
      ∧ IntTy.uint8_t.InRange 56 ∧ (200 : Int) + 55 ≤ IntTy.uint8_t.max
      ∧ IntTy.uint8_t.max < (200 : Int) + 56
      ∧ safe.operator_add (safe.ctor IntTy.uint8_t 200) (safe.ctor IntTy.uint8_t 55)
          = .ok ⟨200 + 55⟩
      ∧ (∃ c, safe.operator_add (safe.ctor IntTy.uint8_t 200) (safe.ctor IntTy.uint8_t 56)
          = .error ⟨.overflow_exception, c⟩) :=
  ⟨rfl, by decide, by decide, by decide, by decide, by decide,
    (operator_add_unsigned_spec IntTy.uint8_t 200 55 rfl (by decide) (by decide)).2.2
      (by decide),
    (operator_add_unsigned_spec IntTy.uint8_t 200 56 rfl (by decide) (by decide)).2.1.2
      (by decide)⟩

/-- C17: for every `T` and all objects `a`, `b`, `a += b` and `a + b` have the same
outcome: when `a + b` throws, `a += b` throws the same exception (and leaves `a`
as it was); when `a + b` returns `r`, `a += b` leaves `r` in `a` and returns
it. -/
theorem operator_add_assign_eq_operator_add (T : IntTy) (a b : safe T) :
    a.operator_add_assign b =
      match safe.operator_add a b with
      | .ok r => ⟨.ok r, r⟩
      | .error e => ⟨.error e, a⟩ := by
  unfold safe.operator_add_assign safe.operator_add FC_CAPTURE_AND_THROW safe.ctor
  split_ifs <;> rfl

/-- C18: for every `T` and `a`, `b` of `T`, `safe(a) + safe(b)` and
`safe(b) + safe(a)` both return the same value, or both throw
`overflow_exception`, or both throw `underflow_exception`. -/
theorem operator_add_comm (T : IntTy) (a b : Int) (ha : T.InRange a) (hb : T.InRange b) :
    (∃ r, safe.operator_add (safe.ctor T a) (safe.ctor T b) = .ok r
        ∧ safe.operator_add (safe.ctor T b) (safe.ctor T a) = .ok r)
      ∨ (∃ c d, safe.operator_add (safe.ctor T a) (safe.ctor T b)
            = .error ⟨.overflow_exception, c⟩
          ∧ safe.operator_add (safe.ctor T b) (safe.ctor T a)
            = .error ⟨.overflow_exception, d⟩)
      ∨ (∃ c d, safe.operator_add (safe.ctor T a) (safe.ctor T b)
            = .error ⟨.underflow_exception, c⟩
          ∧ safe.operator_add (safe.ctor T b) (safe.ctor T a)
            = .error ⟨.underflow_exception, d⟩) := by
  have ha1 := ha.1
  have ha2 := ha.2
  have hb1 := hb.1
  have hb2 := hb.2
  rw [safe.ctor_of_inRange ha, safe.ctor_of_inRange hb, safe.operator_add_eq ha hb,
    safe.operator_add_eq hb ha]
  by_cases hov : T.max < a + b
  · have h1 : 0 < b ∧ T.max < a + b := ⟨by omega, hov⟩
    have h2 : 0 < a ∧ T.max < b + a := ⟨by omega, by omega⟩
    exact Or.inr (Or.inl ⟨[a, b], [b, a], by rw [if_pos h1], by rw [if_pos h2]⟩)
  · have h1 : ¬ (0 < b ∧ T.max < a + b) := by omega
    have h2 : ¬ (0 < a ∧ T.max < b + a) := by omega
    rw [if_neg h1, if_neg h2]
    by_cases hun : a + b < T.min
    · have h3 : b < 0 ∧ a + b < T.min := ⟨by omega, hun⟩
      have h4 : a < 0 ∧ b + a < T.min := ⟨by omega, by omega⟩
      exact Or.inr (Or.inr ⟨[a, b], [b, a], by rw [if_pos h3], by rw [if_pos h4]⟩)
    · have h3 : ¬ (b < 0 ∧ a + b < T.min) := by omega
      have h4 : ¬ (a < 0 ∧ b + a < T.min) := by omega
      rw [if_neg h3, if_neg h4]
      exact Or.inl ⟨⟨a + b⟩, rfl, by rw [Int.add_comm]⟩

/-- Witness of C18 at `int8_t`: `safe(100) + safe(-3)` and `safe(-3) + safe(100)`
both return `safe(97)`, the other two alternatives being excluded. -/
theorem operator_add_comm_witness :
    IntTy.int8_t.InRange 100 ∧ IntTy.int8_t.InRange (-3)
      ∧ safe.operator_add (safe.ctor IntTy.int8_t 100) (safe.ctor IntTy.int8_t (-3))
          = .ok ⟨97⟩
      ∧ ((∃ r, safe.operator_add (safe.ctor IntTy.int8_t 100) (safe.ctor IntTy.int8_t (-3))
              = .ok r
            ∧ safe.operator_add (safe.ctor IntTy.int8_t (-3)) (safe.ctor IntTy.int8_t 100)
              = .ok r)
        ∨ (∃ c d, safe.operator_add (safe.ctor IntTy.int8_t 100) (safe.ctor IntTy.int8_t (-3))
              = .error ⟨.overflow_exception, c⟩
            ∧ safe.operator_add (safe.ctor IntTy.int8_t (-3)) (safe.ctor IntTy.int8_t 100)
              = .error ⟨.overflow_exception, d⟩)
        ∨ (∃ c d, safe.operator_add (safe.ctor IntTy.int8_t 100) (safe.ctor IntTy.int8_t (-3))
              = .error ⟨.underflow_exception, c⟩
            ∧ safe.operator_add (safe.ctor IntTy.int8_t (-3)) (safe.ctor IntTy.int8_t 100)
              = .error ⟨.underflow_exception, d⟩)) :=
  ⟨by decide, by decide, by decide,
    operator_add_comm IntTy.int8_t 100 (-3) (by decide) (by decide)⟩

/-- C19: for an unsigned `T` and `a`, `b` of `T`: with `b > 0`, `a -= b` and
`safe(a) - safe(b)` throw `overflow_exception` when `a ≥ b`, and when `a < b`
they throw nothing and yield `a - b + 2 ^ bits`; with `b = 0` they throw nothing
and yield `a`. So `--a` throws `overflow_exception` for `a ≥ 1` and yields
`2 ^ bits - 1` for `a = 0`. -/
theorem operator_sub_unsigned_spec (T : IntTy) (a b : Int) (hs : T.signed = false)
    (ha : T.InRange a) (hb : T.InRange b) :
    (0 < b → b ≤ a →
        (safe.ctor T a).operator_sub_assign (safe.ctor T b)
            = ⟨.error ⟨.overflow_exception, [a, 2 ^ T.width.bits - b]⟩, ⟨a⟩⟩
          ∧ safe.operator_sub (safe.ctor T a) (safe.ctor T b)
            = .error ⟨.overflow_exception, [a, 2 ^ T.width.bits - b]⟩)
      ∧ (0 < b → a < b →
        (safe.ctor T a).operator_sub_assign (safe.ctor T b)
            = ⟨.ok ⟨a - b + 2 ^ T.width.bits⟩, ⟨a - b + 2 ^ T.width.bits⟩⟩
          ∧ safe.operator_sub (safe.ctor T a) (safe.ctor T b)
            = .ok ⟨a - b + 2 ^ T.width.bits⟩)
      ∧ (b = 0 →
        (safe.ctor T a).operator_sub_assign (safe.ctor T b) = ⟨.ok ⟨a⟩, ⟨a⟩⟩
          ∧ safe.operator_sub (safe.ctor T a) (safe.ctor T b) = .ok ⟨a⟩)
      ∧ (1 ≤ a →
        (safe.ctor T a).operator_pre_dec
          = ⟨.error ⟨.overflow_exception, [a, 2 ^ T.width.bits - 1]⟩, ⟨a⟩⟩)
      ∧ (a = 0 →
        (safe.ctor T a).operator_pre_dec
          = ⟨.ok ⟨2 ^ T.width.bits - 1⟩, ⟨2 ^ T.width.bits - 1⟩⟩) := by
  have hM := (IntTy.unsigned_bounds hs).2
  have h1 : safe.ctor T 1 = ⟨1⟩ := safe.ctor_of_inRange T.inRange_one
  rw [← hM, safe.operator_sub_eq, safe.ctor_of_inRange ha, safe.ctor_of_inRange hb]
  unfold safe.operator_pre_dec
  rw [h1]
  refine ⟨?_, ?_, ?_, ?_, ?_⟩
  · intro hpos hle
    rw [safe.operator_sub_assign_unsigned_eq hs ha hb hpos, if_pos hle]
    exact ⟨rfl, rfl⟩
  · intro hpos hlt
    have hle : ¬ b ≤ a := by omega
    rw [safe.operator_sub_assign_unsigned_eq hs ha hb hpos, if_neg hle]
    exact ⟨rfl, rfl⟩
  · intro hz
    subst hz
    rw [safe.operator_sub_assign_zero ha]
    exact ⟨rfl, rfl⟩
  · intro hle
    rw [safe.operator_sub_assign_unsigned_eq hs ha T.inRange_one (by omega), if_pos hle]
  · intro hz
    have hle : ¬ (1 : Int) ≤ a := by omega
    rw [safe.operator_sub_assign_unsigned_eq hs ha T.inRange_one (by omega), if_neg hle]
    have hv : a - 1 + (T.max + 1) = T.max + 1 - 1 := by omega
    rw [hv]

/-- Witness of C19 at `uint8_t`: `safe(5) - safe(3)` throws `overflow_exception`
and `safe(3) - safe(5)` returns `safe(254)`. -/
theorem operator_sub_unsigned_spec_witness :
    IntTy.uint8_t.signed = false ∧ IntTy.uint8_t.InRange 5 ∧ IntTy.uint8_t.InRange 3
      ∧ safe.operator_sub (safe.ctor IntTy.uint8_t 5) (safe.ctor IntTy.uint8_t 3)
          = .error ⟨.overflow_exception, [5, 2 ^ IntTy.uint8_t.width.bits - 3]⟩
      ∧ safe.operator_sub (safe.ctor IntTy.uint8_t 3) (safe.ctor IntTy.uint8_t 5)
          = .ok ⟨3 - 5 + 2 ^ IntTy.uint8_t.width.bits⟩
      ∧ (3 - 5 + 2 ^ IntTy.uint8_t.width.bits : Int) = 254 :=
  ⟨rfl, by decide, by decide,
    ((operator_sub_unsigned_spec IntTy.uint8_t 5 3 rfl (by decide) (by decide)).1
      (by decide) (by decide)).2,
    ((operator_sub_unsigned_spec IntTy.uint8_t 3 5 rfl (by decide) (by decide)).2.1
      (by decide) (by decide)).2,
    by decide⟩

/-- C20: for a signed `T`, `a` of `T` and `b` of `T` other than `min`: when
`safe(a) + safe(b)` returns `s`, `s - safe(b)` throws nothing and returns
`safe(a)`. And for `v < max` of `T`, `++a` on `a` holding `v` followed by `--a`
throws nothing and leaves `a` holding `v`. -/
theorem operator_add_sub_roundtrip (T : IntTy) (a b : Int) (hs : T.signed = true)
    (ha : T.InRange a) (hb : T.InRange b) (hne : b ≠ T.min) :
    (∀ s, safe.operator_add (safe.ctor T a) (safe.ctor T b) = .ok s →
        safe.operator_sub s (safe.ctor T b) = .ok (safe.ctor T a))
      ∧ (a < T.max → ∃ s, (safe.ctor T a).operator_pre_inc = ⟨.ok s, s⟩
          ∧ s.operator_pre_dec = ⟨.ok (safe.ctor T a), safe.ctor T a⟩) := by
  have ha1 := ha.1
  have ha2 := ha.2
  have hb1 := hb.1
  have hb2 := hb.2
  have sub_back : ∀ c : Int, T.InRange c → c ≠ T.min → T.InRange (a + c) →
      safe.operator_sub_assign (T := T) ⟨a + c⟩ ⟨c⟩ = ⟨.ok ⟨a⟩, ⟨a⟩⟩ := by
    intro c hc hcne hac
    have hnc := IntTy.inRange_neg hs hc hcne
    rw [safe.operator_sub_assign_signed _ hs hc hcne, safe.operator_add_assign_eq hac hnc]
    have h1 : ¬ (0 < -c ∧ T.max < a + c + -c) := by omega
    have h2 : ¬ (-c < 0 ∧ a + c + -c < T.min) := by omega
    have hv : a + c + -c = a := by omega
    rw [if_neg h1, if_neg h2, hv]
  rw [safe.ctor_of_inRange ha, safe.ctor_of_inRange hb]
  refine ⟨?_, ?_⟩
  · intro s hsum
    rw [safe.operator_add_eq ha hb] at hsum
    by_cases h1 : 0 < b ∧ T.max < a + b
    · rw [if_pos h1] at hsum
      simp at hsum
    · rw [if_neg h1] at hsum
      by_cases h2 : b < 0 ∧ a + b < T.min
      · rw [if_pos h2] at hsum
        simp at hsum
      · rw [if_neg h2] at hsum
        have hs' : s = ⟨a + b⟩ := by
          injection hsum with h
          exact h.symm
        subst hs'
        have hab : T.InRange (a + b) := ⟨by omega, by omega⟩
        rw [safe.operator_sub_eq, sub_back b hb hne hab]
  · intro hlt
    have h1 : safe.ctor T 1 = ⟨1⟩ := safe.ctor_of_inRange T.inRange_one
    have hne1 : (1 : Int) ≠ T.min := by
      rcases T.bounds_cases with h | h | h | h | h | h | h | h <;> omega
    have ha1' : T.InRange (a + 1) := ⟨by omega, by omega⟩
    refine ⟨⟨a + 1⟩, ?_, ?_⟩
    · unfold safe.operator_pre_inc
      rw [h1, safe.operator_add_assign_eq ha T.inRange_one]
      have hn1 : ¬ (0 < (1 : Int) ∧ T.max < a + 1) := by omega
      have hn2 : ¬ ((1 : Int) < 0 ∧ a + 1 < T.min) := by omega
      rw [if_neg hn1, if_neg hn2]
    · unfold safe.operator_pre_dec
      rw [h1, sub_back 1 T.inRange_one hne1 ha1']

/-- Witness of C20 at `int8_t`: `(safe(100) + safe(27)) - safe(27)` is `safe(100)`. -/
theorem operator_add_sub_roundtrip_witness :
    IntTy.int8_t.signed = true ∧ IntTy.int8_t.InRange 100 ∧ IntTy.int8_t.InRange 27
      ∧ (27 : Int) ≠ IntTy.int8_t.min
      ∧ safe.operator_add (safe.ctor IntTy.int8_t 100) (safe.ctor IntTy.int8_t 27)
          = .ok ⟨127⟩
      ∧ safe.operator_sub (⟨127⟩ : safe IntTy.int8_t) (safe.ctor IntTy.int8_t 27)
          = .ok (safe.ctor IntTy.int8_t 100)
      ∧ (100 : Int) < IntTy.int8_t.max
      ∧ (∃ s, (safe.ctor IntTy.int8_t 100).operator_pre_inc = ⟨.ok s, s⟩
          ∧ s.operator_pre_dec
            = ⟨.ok (safe.ctor IntTy.int8_t 100), safe.ctor IntTy.int8_t 100⟩) :=
  ⟨rfl, by decide, by decide, by decide, by decide,
    (operator_add_sub_roundtrip IntTy.int8_t 100 27 rfl (by decide) (by decide)
      (by decide)).1 ⟨127⟩ (by decide),
    by decide,
    (operator_add_sub_roundtrip IntTy.int8_t 100 27 rfl (by decide) (by decide)
      (by decide)).2 (by decide)⟩

end fc
